import Mathlib

/-!
Verification of the identity-keyed bounded store (`Collection`, src/unnamed/part_001),
the position reorderers (`editChannelPosition` / `editRolePosition`, src/unnamed/part_000),
the purge pipeline (`purgeChannel`, src/unnamed/part_000 together with
`BaseClient.deleteMessages`, src/lib/BaseClient.js) and the allowed-mentions
normalizer (`_formatAllowedMentions`, src/unnamed/part_000).

The JavaScript code is shallowly embedded: a JS `Map` is an association list in
insertion order (`set` replaces in place for a present key and appends otherwise,
`delete` removes the unique entry of a key), entity objects are records carrying an
explicit reference token `ref` standing for JS object identity, numbers are `Nat`
(or `Int` where the source can go negative), and thrown errors / rejected promises
are `Except.error`.
-/

/-- An object flowing through a `Collection` (src/unnamed/part_001).
`ref` models JS object identity (two objects are "the same object" iff their
`ref` coincides), `id` is the optional identifier field (`obj.id`; `none` models
a missing/absent identifier, numeric identifiers incl. `0` are `some`), `data`
stands for the remaining observable fields, `typed` models the check
`obj instanceof this.baseObject || obj.constructor.name === this.baseObject.name`,
and `extra` records the constructor arguments `...extra` received when the object
was materialized by `new this.baseObject(obj, ...extra)`. -/
structure Obj where
  ref : Nat
  id : Option Nat
  data : Nat
  typed : Bool
  extra : List Nat
deriving DecidableEq, Repr

/-- Materialization `new this.baseObject(obj, ...extra)` (part_001 lines 72, 85):
produces a typed entity carrying the raw object's identifier and data, the extra
constructor arguments, and a fresh reference. -/
def materialize (o : Obj) (extra : List Nat) (fresh : Nat) : Obj :=
  ⟨fresh, o.id, o.data, true, extra⟩

/-- The in-place entity update `item.update(obj, extra)` called by
`Collection.update` (part_001 line 131). Modelled from the spec: the entity
classes of src/structures are not part of the provided source; per the spec,
update "mutates it in place via its own update contract instead of replacing
it — preserves object identity for external holders of a reference", so the
model refreshes the observable fields (`data`, `extra`) and keeps `ref`, `id`
and the type tag unchanged. -/
def objUpdate (item o : Obj) (extra : List Nat) : Obj :=
  { item with data := o.data, extra := extra }

/-- JS `Map.prototype.get` on an association list in insertion order. -/
def aget : List (Nat × Obj) → Nat → Option Obj
  | [], _ => none
  | (k', v) :: t, k => if k' = k then some v else aget t k

/-- JS `Map.prototype.set`: replaces the value in place when the key is present
(keeping its position in insertion order) and appends otherwise. -/
def aset : List (Nat × Obj) → Nat → Obj → List (Nat × Obj)
  | [], k, v => [(k, v)]
  | (k', v') :: t, k, v => if k' = k then (k, v) :: t else (k', v') :: aset t k v

/-- JS `Map.prototype.delete`: removes the (unique) entry of the key. -/
def adel : List (Nat × Obj) → Nat → List (Nat × Obj)
  | [], _ => []
  | (k', v') :: t, k => if k' = k then t else (k', v') :: adel t k

/-- The `Collection` of src/unnamed/part_001: a `Map` (insertion-ordered
association list) with an optional capacity `limit` (`none` = the constructor
argument was left `undefined`). `nextRef` is the supply of fresh object
references for materialization. The `baseObject` class is abstracted into
`materialize` and the `typed` flag. -/
structure Collection where
  entries : List (Nat × Obj)
  limit : Option Nat
  nextRef : Nat
deriving DecidableEq, Repr

/-- A `Collection` as freshly constructed (part_001 line 14): an empty `Map`. -/
def Collection.empty (limit : Option Nat) : Collection :=
  ⟨[], limit, 0⟩

/-- The eviction loop of `Collection.add` (part_001 lines 90-95):
`while(this.size > this.limit) this.delete(iter.next().value)` deletes the
oldest remaining entry (keys are unique in a `Map`, so deleting the first key
drops exactly the head) until the size bound holds. -/
def evictOldest (k : Nat) : List (Nat × Obj) → List (Nat × Obj)
  | [] => []
  | x :: xs => if xs.length + 1 ≤ k then x :: xs else evictOldest k xs

/-- The store-and-enforce tail of `Collection.add` (part_001 lines 84-97):
materialize the object unless it is already typed, `set` it under `obj.id`
(materialization preserves the identifier, so the key is `i`), then run the
capacity check `if(this.limit && this.size > this.limit)` — truthiness of
`this.limit` means a limit that is set and nonzero. -/
def Collection.insertStore (c : Collection) (i : Nat) (o : Obj) (extra : List Nat) :
    Obj × Collection :=
  let obj := if o.typed then o else materialize o extra c.nextRef
  let nr := if o.typed then c.nextRef else c.nextRef + 1
  let ents := aset c.entries i obj
  let ents' := match c.limit with
    | some k => if k ≠ 0 ∧ ents.length > k then evictOldest k ents else ents
    | none => ents
  (obj, { c with entries := ents', nextRef := nr })

/-- `Collection.add` (part_001 lines 70-98). A capacity of zero short-circuits
before the identifier check (`if(this.limit === 0)`), returning the object
(materialized if not already typed) without touching the map; otherwise a
missing identifier throws, an existing entry is returned unchanged unless
`replace` is set, and otherwise the object is stored and the bound enforced. -/
def Collection.add (c : Collection) (o : Obj) (extra : List Nat) (rep : Bool) :
    Except String (Obj × Collection) :=
  if c.limit = some 0 then
    if o.typed then .ok (o, c)
    else .ok (materialize o extra c.nextRef, { c with nextRef := c.nextRef + 1 })
  else
    match o.id with
    | none => .error "Missing object id"
    | some i =>
      match aget c.entries i with
      | some existing => if rep then .ok (c.insertStore i o extra) else .ok (existing, c)
      | none => .ok (c.insertStore i o extra)

/-- `Collection.remove` (part_001 lines 106-113): delete by the identifier found
on the argument; `null` (here `none`) when nothing was removed. An absent
identifier looks up `undefined` and removes nothing. -/
def Collection.remove (c : Collection) (o : Obj) : Option Obj × Collection :=
  match o.id with
  | none => (none, c)
  | some i =>
    match aget c.entries i with
    | none => (none, c)
    | some item => (some item, { c with entries := adel c.entries i })

/-- `Collection.update` (part_001 lines 123-133). The identifier check
`if(!obj.id && obj.id !== 0)` runs first — before any capacity-zero
consideration; a missing entry delegates to `add`, an existing entry is
mutated in place via its own update contract and returned. -/
def Collection.update (c : Collection) (o : Obj) (extra : List Nat) (rep : Bool) :
    Except String (Obj × Collection) :=
  match o.id with
  | none => .error "Missing object id"
  | some i =>
    match aget c.entries i with
    | none => c.add o extra rep
    | some item =>
      let item' := objUpdate item o extra
      .ok (item', { c with entries := aset c.entries i item' })

/-- One operation of a client session against a `Collection`. -/
inductive Op where
  | add (o : Obj) (extra : List Nat) (rep : Bool)
  | upd (o : Obj) (extra : List Nat) (rep : Bool)
  | rem (o : Obj)
deriving DecidableEq, Repr

/-- The state after one operation. A thrown error propagates to the caller and
leaves the map untouched (both throws in the source happen before any
mutation). -/
def Collection.step (c : Collection) : Op → Collection
  | .add o e r =>
    match c.add o e r with
    | .ok (_, c') => c'
    | .error _ => c
  | .upd o e r =>
    match c.update o e r with
    | .ok (_, c') => c'
    | .error _ => c
  | .rem o => (c.remove o).2

/-- The state after a sequence of operations. -/
def Collection.runOps (c : Collection) (ops : List Op) : Collection :=
  ops.foldl Collection.step c

/-- This definition follows the claim's words, not the source: "the retained
entries are exactly the k most recently inserted identifiers that were not
explicitly removed". It replays the operation sequence keeping every inserted
identifier ordered by its most recent insertion, drops identifiers that are
explicitly removed, and finally keeps the k most recent. -/
def specRetained (k : Nat) (ops : List Op) : List Nat :=
  let ins := ops.foldl
    (fun (acc : List Nat) op =>
      match op with
      | .add o _ _ => match o.id with
        | some i => acc.filter (· ≠ i) ++ [i]
        | none => acc
      | .upd o _ _ => match o.id with
        | some i => acc.filter (· ≠ i) ++ [i]
        | none => acc
      | .rem o => match o.id with
        | some i => acc.filter (· ≠ i)
        | none => acc) []
  ins.drop (ins.length - k)

/-- A guild channel as the reorderer sees it: identifier, type tag and current
position (src/unnamed/part_000, `editChannelPosition`). -/
structure Chan where
  id : Nat
  type : Nat
  position : Int
deriving DecidableEq, Repr

/-- One entry of the position patch submitted by `editChannelPosition`
(part_000 lines 734-739). -/
structure ChanPatch where
  id : Nat
  position : Int
  lock_permissions : Option Bool
  parent_id : Option Nat
deriving DecidableEq, Repr

/-- Stable insertion of an element into a position-sorted list: the element goes
after every element of smaller or equal position. -/
def insertByPos (x : Chan) : List Chan → List Chan
  | [] => [x]
  | y :: ys => if y.position ≤ x.position then y :: insertByPos x ys else x :: y :: ys

/-- The stable ascending sort `sort((a, b) => a.position - b.position)` of
`editChannelPosition` (part_000 line 728); JS `Array.prototype.sort` is stable,
so equal positions keep their original relative order, which insertion after
equals reproduces. -/
def sortByPos (l : List Chan) : List Chan :=
  l.foldl (fun acc x => insertByPos x acc) []

/-- `Client.editChannelPosition` (part_000 lines 712-740). `channels` is the
guild's channel collection in insertion order; the result is `none` for the
no-op early return (`channel.position === position`) and otherwise the patch
array sent to the transport. A missing channel rejects. -/
def editChannelPosition (channels : List Chan) (channelID : Nat) (position : Int)
    (lockPermissions : Option Bool) (parentID : Option Nat) :
    Except String (Option (List ChanPatch)) :=
  match channels.find? (fun c => c.id = channelID) with
  | none => .error ("Channel " ++ toString channelID ++ " not found")
  | some channel =>
    if channel.position = position then .ok none
    else
      let mn := min position channel.position
      let mx := max position channel.position
      let filtered := channels.filter (fun chan =>
        chan.type = channel.type && mn ≤ chan.position && chan.position ≤ mx
          && chan.id ≠ channelID)
      let sorted := sortByPos filtered
      let arranged := if position > channel.position then sorted ++ [channel]
        else channel :: sorted
      .ok (some (arranged.enum.map (fun p =>
        ⟨p.2.id, (p.1 : Int) + mn, lockPermissions, parentID⟩)))

/-- A guild role as the reorderer sees it (src/unnamed/part_000,
`editRolePosition`). -/
structure Role where
  id : Nat
  position : Int
deriving DecidableEq, Repr

/-- One entry of the position patch submitted by `editRolePosition`
(part_000 lines 1177-1180). -/
structure RolePatch where
  id : Nat
  position : Int
deriving DecidableEq, Repr

/-- Stable insertion for roles, as for channels. -/
def insertRoleByPos (x : Role) : List Role → List Role
  | [] => [x]
  | y :: ys => if y.position ≤ x.position then y :: insertRoleByPos x ys else x :: y :: ys

/-- Stable ascending sort by position for roles (part_000 line 1170). -/
def sortRolesByPos (l : List Role) : List Role :=
  l.foldl (fun acc x => insertRoleByPos x acc) []

/-- `Client.editRolePosition` (part_000 lines 1157-1181): the default everyone
role (whose identifier equals the guild identifier) is rejected up front;
otherwise a missing role rejects, an unchanged position resolves without a
patch, and the contiguous range filter / stable sort / reissue runs as for
channels. -/
def editRolePosition (roles : List Role) (guildID roleID : Nat) (position : Int) :
    Except String (Option (List RolePatch)) :=
  if guildID = roleID then .error "Cannot move default role"
  else
    match roles.find? (fun r => r.id = roleID) with
    | none => .error ("Role " ++ toString roleID ++ " not found")
    | some role =>
      if role.position = position then .ok none
      else
        let mn := min position role.position
        let mx := max position role.position
        let filtered := roles.filter (fun r =>
          mn ≤ r.position && r.position ≤ mx && r.id ≠ roleID)
        let sorted := sortRolesByPos filtered
        let arranged := if position > role.position then sorted ++ [role]
          else role :: sorted
        .ok (some (arranged.enum.map (fun p => ⟨p.2.id, (p.1 : Int) + mn⟩)))

/-- An externally visible request or wait of the purge/delete pipeline, in
chronological order: a paged message fetch returning `n` messages, a bulk
delete request carrying `n` identifiers, a single-message delete, or a timer
wait of `ms` milliseconds. -/
inductive Ev where
  | fetch (n : Nat)
  | bulkDelete (n : Nat)
  | singleDelete (id : Nat)
  | sleep (ms : Nat)
deriving DecidableEq, Repr

/-- The bulk-delete staleness bound of `BaseClient.deleteMessages`
(BaseClient.js line 640): `(Date.now() - 1421280000000) * 4194304`, i.e. the
snowflake whose embedded timestamp is exactly 14 days before `now`
(1421280000000 ms = the service epoch 1420070400000 plus 14 days, 4194304 =
2 to the 22, the timestamp shift inside a snowflake). Subtraction is truncated,
matching the source for every realistic clock value (`now` past the epoch). -/
def oldestAllowedSnowflake (now : Nat) : Nat :=
  (now - 1421280000000) * 4194304

/-- The recursion of `BaseClient.deleteMessages` (BaseClient.js lines 632-656),
with a structural fuel so that applications reduce; each recursion step strips
100 identifiers, so any fuel above the list length is never exhausted. An empty
list resolves doing nothing; a single identifier is routed through the
single-delete endpoint; otherwise any identifier below the staleness bound
rejects before any request, and the list is submitted in bulk chunks of 100
(`splice(0, 100)` posts the first 100, then the remainder recurses). -/
def deleteMessagesGo (now : Nat) : Nat → List Nat → Except String (List Ev)
  | 0, _ => .ok []
  | fuel + 1, ids =>
    if ids.length = 0 then .ok []
    else if ids.length = 1 then .ok [.singleDelete ids.headI]
    else
      match ids.find? (fun i => i < oldestAllowedSnowflake now) with
      | some invalid =>
        .error ("Message " ++ toString invalid ++ " is more than 2 weeks old.")
      | none =>
        if ids.length > 100 then
          (deleteMessagesGo now fuel (ids.drop 100)).map
            (fun evs => Ev.bulkDelete 100 :: evs)
        else
          .ok [.bulkDelete ids.length]

/-- `BaseClient.deleteMessages` (BaseClient.js lines 632-656), as the list of
requests it performs. -/
def deleteMessagesE (now : Nat) (ids : List Nat) : Except String (List Ev) :=
  deleteMessagesGo now (ids.length + 1) ids

/-- A message as the purge pipeline sees it: a snowflake identifier and the
creation timestamp in milliseconds. -/
structure Msg where
  id : Nat
  timestamp : Nat
deriving DecidableEq, Repr

/-- The scan staleness bound of `purgeChannel` (part_000 line 1577):
`Date.now() - 1209600000`, 14 days before now, in milliseconds. -/
def purgeCutoff (now : Nat) : Nat :=
  now - 1209600000

/-- The paged fetch `getMessages(channelID, ⟨limit: 100, before, after⟩)`
issued by the scanner (part_000 lines 1563-1567, through
`BaseClient.getMessages`). The remote listing is modelled per the spec's
external-interface contract: the channel history `hist` is held
newest-first, and a page returns the newest at most 100 messages strictly
older than the `before` cursor. The purge claims exercise only the
default backward (`before`) direction, so the `after` cursor is not
modelled. -/
def fetchPage (hist : List Msg) (before : Option Nat) : List Msg :=
  (match before with
   | none => hist
   | some b => hist.filter (fun m => m.id < b)).take 100

/-- The `for(const message of messages)` body of the scanner `del`
(part_000 lines 1572-1586): stop on an exhausted limit, return (flagging
`done`) on the first message past the 14-day cutoff, otherwise accumulate the
identifier when the filter accepts and decrement a finite limit. Returns
(stale-return flag, remaining limit, accumulation buffer). -/
def procMsgs (now : Nat) (filter : Option (Msg → Bool)) :
    List Msg → Int → List Nat → Bool × Int × List Nat
  | [], lim, acc => (false, lim, acc)
  | m :: ms, lim, acc =>
    if lim ≠ -1 ∧ lim ≤ 0 then (false, lim, acc)
    else if m.timestamp < purgeCutoff now then (true, lim, acc)
    else
      let acc' := if (match filter with | none => true | some f => f m) then acc ++ [m.id]
        else acc
      let lim' := if lim ≠ -1 then lim - 1 else lim
      procMsgs now filter ms lim' acc'

/-- The recursive scanner `del` of `purgeChannel` (part_000 lines 1562-1592) in
the backward direction: fetch a page, stop when the limit is exhausted, the
cutoff is hit, or a short page arrives, else advance the cursor to the oldest
message of the page. `fuel` bounds the recursion (any value above the history
length is never exhausted); the result is the remaining limit, the
accumulation buffer, and the fetch trace. -/
def scanDel (now : Nat) (hist : List Msg) (filter : Option (Msg → Bool)) :
    Nat → Option Nat → Int → List Nat → List Ev → Int × List Nat × List Ev
  | 0, _, lim, acc, tr => (lim, acc, tr)
  | fuel + 1, before, lim, acc, tr =>
    let msgs := fetchPage hist before
    let tr' := tr ++ [.fetch msgs.length]
    if lim ≠ -1 ∧ lim ≤ 0 then (lim, acc, tr')
    else
      let p := procMsgs now filter msgs lim acc
      if p.1 then (p.2.1, p.2.2, tr')
      else if (p.2.1 ≠ -1 ∧ p.2.1 ≤ 0) ∨ msgs.length < 100 then (p.2.1, p.2.2, tr')
      else
        match msgs.getLast? with
        | none => (p.2.1, p.2.2, tr')
        | some last => scanDel now hist filter fuel (some last.id) p.2.1 p.2.2 tr'

/-- `Client.purgeChannel` (part_000 lines 1530-1595). The source awaits
`del(options.before, options.after)` to completion — which sets `done` on every
exit path — before the first call of `checkToDelete`; at that point
`(done && toDelete)` is the whole (truthy, possibly empty) buffer, so the drain
performs a single `deleteMessages` call with the entire buffer, adds its length
to the deleted count, and returns on the `if(done)` check without reaching
either `sleep`. The result is the resolved count together with the
chronological request trace. -/
def purgeChannel (now : Nat) (hist : List Msg) (before : Option Nat) (limit : Int)
    (filter : Option (Msg → Bool)) : Except String (Nat × List Ev) :=
  if limit ≠ -1 ∧ limit ≤ 0 then .ok (0, [])
  else
    match scanDel now hist filter (hist.length + 1) before limit [] [] with
    | (_, acc, tr) =>
      match deleteMessagesE now acc with
      | .error e => .error e
      | .ok evs => .ok (acc.length, tr ++ evs)

/-- Whether an event is a paged fetch. -/
def isFetchEv : Ev → Bool
  | .fetch _ => true
  | _ => false

/-- Whether an event is a bulk-delete request. -/
def isBulkEv : Ev → Bool
  | .bulkDelete _ => true
  | _ => false

/-- Whether a bulk-delete request occurs strictly before a later fetch in a
trace — the observable signature of draining running concurrently with
scanning. -/
def bulkBeforeFetch : List Ev → Bool
  | [] => false
  | e :: rest => (isBulkEv e && rest.any isFetchEv) || bulkBeforeFetch rest

/-- The roles/users field of an allowed-mentions input: absent, a boolean
blanket switch, or an explicit identifier allow-list
(`allowed.roles === true` / `Array.isArray(allowed.roles)` in
`_formatAllowedMentions`). -/
inductive MField where
  | unset
  | flag (b : Bool)
  | list (ids : List Nat)
deriving DecidableEq, Repr

/-- The sparse allowed-mentions input of `_formatAllowedMentions`
(part_000 lines 1653-1683); `everyone` is the truthiness of
`allowed.everyone`. -/
structure AllowedInput where
  everyone : Bool
  roles : MField
  users : MField
  repliedUser : Option Bool
deriving DecidableEq, Repr

/-- The canonical request shape produced by `_formatAllowedMentions`: a `parse`
list of blanket-allowed categories plus optional explicit identifier lists and
the reply-author switch. -/
structure AllowedOut where
  parse : List String
  roles : Option (List Nat)
  users : Option (List Nat)
  replied_user : Option Bool
deriving DecidableEq, Repr

/-- `Client._formatAllowedMentions` (part_000 lines 1653-1683). No input returns
the caller's configured default (`this.options.allowedMentions`); otherwise
`parse` collects `everyone`, a blanket `roles`, and a blanket `users` in that
order, explicit allow-lists are copied through after a 100-entry bound check
(roles checked before users), and `replied_user` is set when given. -/
def formatAllowedMentions (dflt : AllowedOut) :
    Option AllowedInput → Except String AllowedOut
  | none => .ok dflt
  | some allowed =>
    let parseEveryone : List String := if allowed.everyone then ["everyone"] else []
    let rolesStep : Except String (List String × Option (List Nat)) :=
      match allowed.roles with
      | .flag true => .ok (["roles"], none)
      | .list l =>
        if l.length > 100 then .error "Allowed role mentions cannot exceed 100."
        else .ok ([], some l)
      | _ => .ok ([], none)
    match rolesStep with
    | .error e => .error e
    | .ok (parseRoles, rolesList) =>
      let usersStep : Except String (List String × Option (List Nat)) :=
        match allowed.users with
        | .flag true => .ok (["users"], none)
        | .list l =>
          if l.length > 100 then .error "Allowed user mentions cannot exceed 100."
          else .ok ([], some l)
        | _ => .ok ([], none)
      match usersStep with
      | .error e => .error e
      | .ok (parseUsers, usersList) =>
        .ok ⟨parseEveryone ++ parseRoles ++ parseUsers, rolesList, usersList,
          allowed.repliedUser⟩

/-- A fixed clock for the concrete purge scenarios. The value is the service
epoch plus 14 days, which makes `oldestAllowedSnowflake` zero, so every
numeric identifier is young enough for bulk deletion. -/
def purgeNow : Nat := 1421280000000

/-- A channel history of `n` messages, newest first (identifiers `n` down to
`1`), all carrying the current timestamp and hence all younger than the 14-day
cutoff. -/
def purgeHist (n : Nat) : List Msg :=
  (List.range n).map (fun i => ⟨n - i, purgeNow⟩)

/-- Ten same-category sibling channels at positions 0 through 9, identifier
equal to position. -/
def chans10 : List Chan :=
  (List.range 10).map (fun i => ⟨i, 0, (i : Int)⟩)

/-- A typed entity with the given identifier and payload, for concrete
`Collection` traces. -/
def ent (i d : Nat) : Obj :=
  ⟨0, some i, d, true, []⟩

/-- The concrete operation trace refuting C1's retention clause on a store of
capacity 2: insert identifiers 1, 2, 3 (evicting 1), then explicitly remove 3.
The code retains only identifier 2, while the two most recently inserted
identifiers not explicitly removed are 1 and 2. -/
def c1ops : List Op :=
  [.add (ent 1 1) [] false, .add (ent 2 2) [] false,
   .add (ent 3 3) [] false, .rem (ent 3 3)]

/-- Decidable equality on results, for evaluating concrete runs inside
proofs. -/
instance {ε α : Type} [DecidableEq ε] [DecidableEq α] : DecidableEq (Except ε α) := fun a b =>
  match a, b with
  | .error x, .error y =>
    match decEq x y with
    | isTrue h => isTrue (by rw [h])
    | isFalse h => isFalse (fun hh => by cases hh; exact h rfl)
  | .ok x, .ok y =>
    match decEq x y with
    | isTrue h => isTrue (by rw [h])
    | isFalse h => isFalse (fun hh => by cases hh; exact h rfl)
  | .error _, .ok _ => isFalse (fun hh => Except.noConfusion hh)
  | .ok _, .error _ => isFalse (fun hh => Except.noConfusion hh)

theorem aget_none_iff (l : List (Nat × Obj)) (i : Nat) :
    aget l i = none ↔ ∀ p ∈ l, p.1 ≠ i := by
  induction l with
  | nil => simp [aget]
  | cons p t ih =>
    obtain ⟨k', v'⟩ := p
    by_cases hk : k' = i <;> simp [aget, hk, ih]

theorem aset_of_aget_none (l : List (Nat × Obj)) (i : Nat) (v : Obj)
    (h : aget l i = none) : aset l i v = l ++ [(i, v)] := by
  induction l with
  | nil => rfl
  | cons p t ih =>
    obtain ⟨k', v'⟩ := p
    by_cases hk : k' = i
    · simp [aget, hk] at h
    · simp only [aget, if_neg hk] at h
      simp [aset, hk, ih h]

theorem length_aset_of_some (l : List (Nat × Obj)) (i : Nat) (v w : Obj)
    (h : aget l i = some w) : (aset l i v).length = l.length := by
  induction l with
  | nil => simp [aget] at h
  | cons p t ih =>
    obtain ⟨k', v'⟩ := p
    by_cases hk : k' = i
    · simp [aset, hk]
    · simp only [aget, if_neg hk] at h
      simp [aset, hk, ih h]

theorem aget_aset_self (l : List (Nat × Obj)) (i : Nat) (v : Obj) :
    aget (aset l i v) i = some v := by
  induction l with
  | nil => simp [aset, aget]
  | cons p t ih =>
    obtain ⟨k', v'⟩ := p
    by_cases hk : k' = i
    · simp [aset, hk, aget]
    · simp [aset, hk, aget, ih]

theorem length_adel_le (l : List (Nat × Obj)) (i : Nat) :
    (adel l i).length ≤ l.length := by
  induction l with
  | nil => simp [adel]
  | cons p t ih =>
    obtain ⟨k', v'⟩ := p
    by_cases hk : k' = i
    · simp only [adel, if_pos hk, List.length_cons]; omega
    · simp only [adel, if_neg hk, List.length_cons]; omega

theorem evictOldest_eq_drop (k : Nat) (l : List (Nat × Obj)) :
    evictOldest k l = l.drop (l.length - k) := by
  induction l with
  | nil => simp [evictOldest]
  | cons x xs ih =>
    by_cases h : xs.length + 1 ≤ k
    · rw [evictOldest, if_pos h]
      have h0 : (x :: xs).length - k = 0 := by simp [List.length_cons]; omega
      rw [h0]; rfl
    · rw [evictOldest, if_neg h, ih]
      have h1 : (x :: xs).length - k = (xs.length - k) + 1 := by
        simp [List.length_cons]; omega
      rw [h1, List.drop_succ_cons]

theorem length_evictOldest (k : Nat) (l : List (Nat × Obj)) :
    (evictOldest k l).length = min l.length k := by
  rw [evictOldest_eq_drop, List.length_drop]; omega

theorem aget_append_of_none (l₁ l₂ : List (Nat × Obj)) (i : Nat)
    (h : aget l₁ i = none) : aget (l₁ ++ l₂) i = aget l₂ i := by
  induction l₁ with
  | nil => rfl
  | cons p t ih =>
    obtain ⟨k', v'⟩ := p
    by_cases hk : k' = i
    · simp [aget, hk] at h
    · simp only [aget, if_neg hk] at h
      simp [aget, hk, ih h]

theorem aget_drop_none (l : List (Nat × Obj)) (i d : Nat)
    (h : aget l i = none) : aget (l.drop d) i = none := by
  rw [aget_none_iff] at h ⊢
  exact fun p hp => h p (List.drop_subset d l hp)

theorem insertStore_limit (c : Collection) (i : Nat) (o : Obj) (extra : List Nat) :
    (c.insertStore i o extra).2.limit = c.limit := rfl

theorem insertStore_entries_length_le (c : Collection) (i : Nat) (o : Obj)
    (extra : List Nat) (k : Nat) (hl : c.limit = some k) (hk : k ≠ 0) :
    (c.insertStore i o extra).2.entries.length ≤ k := by
  unfold Collection.insertStore
  simp only [hl]
  set ents := aset c.entries i (if o.typed then o else materialize o extra c.nextRef)
    with hents
  by_cases hg : k ≠ 0 ∧ ents.length > k
  · simp only [if_pos hg, length_evictOldest]; omega
  · simp only [if_neg hg]; omega

theorem add_ok_limit (c : Collection) (o : Obj) (e : List Nat) (r : Bool)
    (v : Obj) (c' : Collection) (h : c.add o e r = .ok (v, c')) :
    c'.limit = c.limit := by
  unfold Collection.add Collection.insertStore at h
  split at h
  · split at h <;>
      (simp only [Except.ok.injEq, Prod.mk.injEq] at h; obtain ⟨-, h2⟩ := h;
        subst h2; rfl)
  · split at h
    · exact Except.noConfusion h
    · split at h
      · split at h <;>
          (simp only [Except.ok.injEq, Prod.mk.injEq] at h; obtain ⟨-, h2⟩ := h;
            subst h2; rfl)
      · simp only [Except.ok.injEq, Prod.mk.injEq] at h
        obtain ⟨-, h2⟩ := h; subst h2; rfl

theorem update_ok_limit (c : Collection) (o : Obj) (e : List Nat) (r : Bool)
    (v : Obj) (c' : Collection) (h : c.update o e r = .ok (v, c')) :
    c'.limit = c.limit := by
  unfold Collection.update at h
  split at h
  · exact Except.noConfusion h
  · split at h
    · exact add_ok_limit c o e r v c' h
    · simp only [Except.ok.injEq, Prod.mk.injEq] at h
      obtain ⟨-, h2⟩ := h; subst h2; rfl

theorem remove_snd_limit (c : Collection) (o : Obj) :
    ((c.remove o).2).limit = c.limit := by
  unfold Collection.remove
  split
  · rfl
  · split <;> rfl

theorem step_limit (c : Collection) (op : Op) : (c.step op).limit = c.limit := by
  cases op with
  | add o e r =>
    show (match c.add o e r with
      | .ok (_, c') => c'
      | .error _ => c).limit = c.limit
    cases hadd : c.add o e r with
    | ok p =>
      obtain ⟨v, c'⟩ := p
      exact add_ok_limit c o e r v c' hadd
    | error s => rfl
  | upd o e r =>
    show (match c.update o e r with
      | .ok (_, c') => c'
      | .error _ => c).limit = c.limit
    cases hupd : c.update o e r with
    | ok p =>
      obtain ⟨v, c'⟩ := p
      exact update_ok_limit c o e r v c' hupd
    | error s => rfl
  | rem o => exact remove_snd_limit c o

theorem add_ok_entries_length (c : Collection) (o : Obj) (e : List Nat) (r : Bool)
    (v : Obj) (c' : Collection) (k : Nat) (hl : c.limit = some k) (hk : k ≠ 0)
    (hlen : c.entries.length ≤ k) (h : c.add o e r = .ok (v, c')) :
    c'.entries.length ≤ k := by
  unfold Collection.add at h
  split at h
  · rename_i h0
    rw [hl] at h0
    injection h0 with h0
    exact absurd h0 hk
  · split at h
    · exact Except.noConfusion h
    · rename_i i hid
      split at h
      · split at h
        · simp only [Except.ok.injEq] at h
          have hle := insertStore_entries_length_le c i o e k hl hk
          rw [h] at hle
          exact hle
        · simp only [Except.ok.injEq, Prod.mk.injEq] at h
          obtain ⟨-, h2⟩ := h; subst h2; exact hlen
      · simp only [Except.ok.injEq] at h
        have hle := insertStore_entries_length_le c i o e k hl hk
        rw [h] at hle
        exact hle

theorem update_ok_entries_length (c : Collection) (o : Obj) (e : List Nat) (r : Bool)
    (v : Obj) (c' : Collection) (k : Nat) (hl : c.limit = some k) (hk : k ≠ 0)
    (hlen : c.entries.length ≤ k) (h : c.update o e r = .ok (v, c')) :
    c'.entries.length ≤ k := by
  unfold Collection.update at h
  split at h
  · exact Except.noConfusion h
  · rename_i i hid
    split at h
    · exact add_ok_entries_length c o e r v c' k hl hk hlen h
    · rename_i item hga
      simp only [Except.ok.injEq, Prod.mk.injEq] at h
      obtain ⟨-, h2⟩ := h; subst h2
      simp only
      rw [length_aset_of_some c.entries i _ item hga]
      exact hlen

theorem remove_snd_entries_length (c : Collection) (o : Obj) (k : Nat)
    (hlen : c.entries.length ≤ k) : ((c.remove o).2).entries.length ≤ k := by
  unfold Collection.remove
  split
  · exact hlen
  · split
    · exact hlen
    · exact le_trans (length_adel_le c.entries _) hlen

theorem step_entries_length_le (c : Collection) (op : Op) (k : Nat)
    (hl : c.limit = some k) (hk : k ≠ 0) (hlen : c.entries.length ≤ k) :
    (c.step op).entries.length ≤ k := by
  cases op with
  | add o e r =>
    show (match c.add o e r with
      | .ok (_, c') => c'
      | .error _ => c).entries.length ≤ k
    cases hadd : c.add o e r with
    | ok p =>
      obtain ⟨v, c'⟩ := p
      exact add_ok_entries_length c o e r v c' k hl hk hlen hadd
    | error s => exact hlen
  | upd o e r =>
    show (match c.update o e r with
      | .ok (_, c') => c'
      | .error _ => c).entries.length ≤ k
    cases hupd : c.update o e r with
    | ok p =>
      obtain ⟨v, c'⟩ := p
      exact update_ok_entries_length c o e r v c' k hl hk hlen hupd
    | error s => exact hlen
  | rem o => exact remove_snd_entries_length c o k hlen

theorem runOps_entries_length_le (k : Nat) (hk : k ≠ 0) :
    ∀ (ops : List Op) (c : Collection), c.limit = some k → c.entries.length ≤ k →
      (c.runOps ops).entries.length ≤ k := by
  intro ops
  induction ops with
  | nil => intro c _ hlen; exact hlen
  | cons op rest ih =>
    intro c hl hlen
    have hstep : Collection.runOps c (op :: rest) = Collection.runOps (c.step op) rest := rfl
    rw [hstep]
    exact ih (c.step op) (by rw [step_limit]; exact hl)
      (step_entries_length_le c op k hl hk hlen)

theorem add_fresh_insert (c : Collection) (o : Obj) (i : Nat) (extra : List Nat)
    (rep : Bool) (k : Nat) (hl : c.limit = some k) (hk : k ≠ 0)
    (hid : o.id = some i) (hga : aget c.entries i = none) :
    ∃ v c', c.add o extra rep = .ok (v, c') ∧
      c'.entries.map Prod.fst =
        (c.entries.map Prod.fst ++ [i]).drop (c.entries.length + 1 - k) := by
  have h0 : ¬(c.limit = some 0) := by
    rw [hl]; intro hc; injection hc with hc; exact hk hc
  refine ⟨(c.insertStore i o extra).1, (c.insertStore i o extra).2, ?_, ?_⟩
  · unfold Collection.add
    simp only [if_neg h0, hid, hga]
  · unfold Collection.insertStore
    simp only [hl]
    set obj := if o.typed then o else materialize o extra c.nextRef with hobj
    have hset : aset c.entries i obj = c.entries ++ [(i, obj)] :=
      aset_of_aget_none _ _ _ hga
    simp only [hset]
    by_cases hg : k ≠ 0 ∧ (c.entries ++ [(i, obj)]).length > k
    · simp only [if_pos hg]
      rw [evictOldest_eq_drop]
      rw [List.map_drop]
      simp [List.length_append]
    · simp only [if_neg hg]
      have hz : c.entries.length + 1 - k = 0 := by
        rcases not_and_or.mp hg with hc | hc
        · exact absurd (fun hh => hc hh) (fun hh => hh hk)
        · simp only [List.length_append, List.length_cons, List.length_nil] at hc
          omega
      rw [hz, List.drop_zero]
      simp [List.map_append]

/-- C1 (amended): for a `Collection` constructed with a positive capacity limit
`k`, after every sequence of add, update and remove operations the number of
stored entries is at most `k`, and an insertion of a fresh identifier evicts
entries oldest-first by insertion order until the bound holds again (the
resulting key sequence is the old key sequence with the new identifier
appended and exactly the oldest overflow dropped). The original claim's
further clause — that the retained entries are exactly the `k` most recently
inserted identifiers not explicitly removed — fails, because identifiers
evicted by an earlier over-capacity insertion are not restored when a later
explicit removal frees space (see the counterexample). -/
theorem claim_c1_capacity_invariant (k : Nat) (hk : 0 < k) :
    (∀ ops : List Op, ((Collection.empty (some k)).runOps ops).entries.length ≤ k) ∧
    (∀ (c : Collection) (o : Obj) (i : Nat) (extra : List Nat) (rep : Bool),
      c.limit = some k → o.id = some i → aget c.entries i = none →
      ∃ v c', c.add o extra rep = .ok (v, c') ∧
        c'.entries.map Prod.fst =
          (c.entries.map Prod.fst ++ [i]).drop (c.entries.length + 1 - k)) := by
  constructor
  · intro ops
    exact runOps_entries_length_le k (by omega) ops (Collection.empty (some k)) rfl
      (by simp [Collection.empty])
  · intro c o i extra rep hl hid hga
    exact add_fresh_insert c o i extra rep k hl (by omega) hid hga

/-- Witness for C1: the capacity-2 invariant evaluated on the concrete trace
`c1ops`, and the eviction shape of a fresh insert into a full capacity-2
store. -/
theorem claim_c1_capacity_invariant_witness :
    (((Collection.empty (some 2)).runOps c1ops).entries.length ≤ 2) ∧
    (∃ v c', (⟨[(1, ent 1 1), (2, ent 2 2)], some 2, 0⟩ : Collection).add
        (ent 3 3) [] false = .ok (v, c') ∧
      c'.entries.map Prod.fst =
        (([(1, ent 1 1), (2, ent 2 2)] : List (Nat × Obj)).map Prod.fst ++ [3]).drop
          (([(1, ent 1 1), (2, ent 2 2)] : List (Nat × Obj)).length + 1 - 2)) :=
  ⟨(claim_c1_capacity_invariant 2 (by decide)).1 c1ops,
   (claim_c1_capacity_invariant 2 (by decide)).2
     ⟨[(1, ent 1 1), (2, ent 2 2)], some 2, 0⟩ (ent 3 3) 3 [] false rfl rfl (by decide)⟩

/-- Counterexample for C1 as stated: on a capacity-2 store, after inserting
identifiers 1, 2, 3 (which evicts 1) and then explicitly removing 3, the code
retains only identifier 2, whereas the two most recently inserted identifiers
that were not explicitly removed are 1 and 2 — eviction is not undone by the
removal. -/
theorem claim_c1_retention_counterexample :
    ((Collection.empty (some 2)).runOps c1ops).entries.map Prod.fst = [2] ∧
    specRetained 2 c1ops = [1, 2] ∧
    ((Collection.empty (some 2)).runOps c1ops).entries.map Prod.fst ≠
      specRetained 2 c1ops := by
  refine ⟨by decide, by decide, by decide⟩

theorem aget_insertStore_self (c : Collection) (i : Nat) (o : Obj) (extra : List Nat)
    (hsz : ∀ k, c.limit = some k → c.entries.length ≤ k) (hnz : c.limit ≠ some 0) :
    aget (c.insertStore i o extra).2.entries i = some (c.insertStore i o extra).1 := by
  unfold Collection.insertStore
  set obj := if o.typed then o else materialize o extra c.nextRef with hobj
  cases hcl : c.limit with
  | none =>
    simp only
    exact aget_aset_self c.entries i obj
  | some k =>
    have hk : k ≠ 0 := fun h => hnz (by rw [hcl, h])
    have hlen := hsz k hcl
    simp only
    cases hga : aget c.entries i with
    | some w =>
      have hl2 : (aset c.entries i obj).length = c.entries.length :=
        length_aset_of_some c.entries i obj w hga
      have hgf : ¬(k ≠ 0 ∧ (aset c.entries i obj).length > k) := by
        rw [hl2]; intro hcon; omega
      rw [if_neg hgf]
      exact aget_aset_self c.entries i obj
    | none =>
      have hset := aset_of_aget_none c.entries i obj hga
      rw [hset]
      by_cases hg : k ≠ 0 ∧ (c.entries ++ [(i, obj)]).length > k
      · rw [if_pos hg, evictOldest_eq_drop]
        have hD : (c.entries ++ [(i, obj)]).length - k ≤ c.entries.length := by
          simp only [List.length_append, List.length_cons, List.length_nil]; omega
        rw [List.drop_append_of_le_length hD]
        rw [aget_append_of_none _ _ _ (aget_drop_none _ _ _ hga)]
        simp [aget]
      · rw [if_neg hg]
        rw [aget_append_of_none _ _ _ hga]
        simp [aget]

theorem add_eq_insertStore (c : Collection) (o : Obj) (i : Nat) (extra : List Nat)
    (rep : Bool) (hnz : c.limit ≠ some 0) (hid : o.id = some i)
    (hnew : aget c.entries i = none ∨ rep = true) :
    c.add o extra rep = .ok (c.insertStore i o extra) := by
  unfold Collection.add
  rw [if_neg hnz]
  simp only [hid]
  cases hga : aget c.entries i with
  | none => rfl
  | some ex =>
    rcases hnew with hnone | hrep
    · rw [hga] at hnone; exact Option.noConfusion hnone
    · rw [hrep]; rfl

/-- C2: on a store of nonzero capacity, `add` with a raw object that carries an
identifier, is not an instance of the entity type, and is fresh (or `replace`
is set) materializes a typed entity from the raw object — passing the extra
constructor arguments through — stores it under its identifier, and returns
exactly that newly created entity. The size hypothesis `hsz` states the
capacity invariant, which every reachable store satisfies. -/
theorem claim_c2_add_materializes (c : Collection) (o : Obj) (i : Nat)
    (extra : List Nat) (rep : Bool)
    (hsz : ∀ k, c.limit = some k → c.entries.length ≤ k)
    (hnz : c.limit ≠ some 0) (hid : o.id = some i) (hraw : o.typed = false)
    (hnew : aget c.entries i = none ∨ rep = true) :
    ∃ c', c.add o extra rep = .ok (materialize o extra c.nextRef, c') ∧
      aget c'.entries i = some (materialize o extra c.nextRef) ∧
      (materialize o extra c.nextRef).typed = true ∧
      (materialize o extra c.nextRef).extra = extra ∧
      (materialize o extra c.nextRef).id = some i := by
  have hins := add_eq_insertStore c o i extra rep hnz hid hnew
  have hfst : (c.insertStore i o extra).1 = materialize o extra c.nextRef := by
    unfold Collection.insertStore
    simp [hraw]
  refine ⟨(c.insertStore i o extra).2, ?_, ?_, rfl, rfl, ?_⟩
  · rw [hins, ← hfst]
  · rw [← hfst]
    exact aget_insertStore_self c i o extra hsz hnz
  · rw [materialize, hid]

/-- Witness for C2: a fresh raw object with identifier 1 added to an empty
capacity-5 store. -/
theorem claim_c2_add_materializes_witness :
    ∃ c', (Collection.empty (some 5)).add ⟨0, some 1, 42, false, []⟩ [9] false =
        .ok (materialize ⟨0, some 1, 42, false, []⟩ [9] 0, c') ∧
      aget c'.entries 1 = some (materialize ⟨0, some 1, 42, false, []⟩ [9] 0) ∧
      (materialize ⟨0, some 1, 42, false, []⟩ [9] 0).typed = true ∧
      (materialize ⟨0, some 1, 42, false, []⟩ [9] 0).extra = [9] ∧
      (materialize ⟨0, some 1, 42, false, []⟩ [9] 0).id = some 1 :=
  claim_c2_add_materializes (Collection.empty (some 5)) ⟨0, some 1, 42, false, []⟩ 1
    [9] false (fun k hk => by injection hk with hk; simp [Collection.empty])
    (by decide) rfl rfl (Or.inl rfl)

/-- C6 (amended): `update` on an identifier with an existing entry mutates that
entry in place — the stored and returned entity keeps the original reference,
identifier and type, and only its observable field values change — and
`update` on a missing identifier delegates to `add` with the same result and
store state whenever the input carries an identifier. The original claim's
"for every input" fails: an input lacking an identifier always makes `update`
throw, even on a capacity-zero store where `add` would succeed (see the
counterexample). -/
theorem claim_c6_update_in_place :
    (∀ (c : Collection) (o : Obj) (i : Nat) (item : Obj) (extra : List Nat)
        (rep : Bool), o.id = some i → aget c.entries i = some item →
      ∃ item', c.update o extra rep =
          .ok (item', { c with entries := aset c.entries i item' }) ∧
        item'.ref = item.ref ∧ item'.id = item.id ∧ item'.typed = item.typed ∧
        item'.data = o.data) ∧
    (∀ (c : Collection) (o : Obj) (i : Nat) (extra : List Nat) (rep : Bool),
      o.id = some i → aget c.entries i = none →
      c.update o extra rep = c.add o extra rep) ∧
    (∀ (c : Collection) (o : Obj) (extra : List Nat) (rep : Bool),
      o.id = none → c.update o extra rep = .error "Missing object id") := by
  refine ⟨?_, ?_, ?_⟩
  · intro c o i item extra rep hid hga
    refine ⟨objUpdate item o extra, ?_, rfl, rfl, rfl, rfl⟩
    unfold Collection.update
    simp only [hid, hga]
  · intro c o i extra rep hid hga
    unfold Collection.update
    simp only [hid, hga]
  · intro c o extra rep hid
    unfold Collection.update
    simp only [hid]

/-- Witness for C6: in-place update of an existing entry, delegation to `add`
for a missing entry, and the throw on a missing identifier, each at a concrete
store. -/
theorem claim_c6_update_in_place_witness :
    (∃ item', (⟨[(1, ent 1 1)], some 5, 0⟩ : Collection).update (ent 1 9) [] false =
        .ok (item', { (⟨[(1, ent 1 1)], some 5, 0⟩ : Collection) with
          entries := aset [(1, ent 1 1)] 1 item' }) ∧
      item'.ref = (ent 1 1).ref ∧ item'.id = (ent 1 1).id ∧
      item'.typed = (ent 1 1).typed ∧ item'.data = (ent 1 9).data) ∧
    ((Collection.empty (some 5)).update (ent 2 2) [] false =
      (Collection.empty (some 5)).add (ent 2 2) [] false) ∧
    ((Collection.empty (some 5)).update ⟨0, none, 3, true, []⟩ [] false =
      .error "Missing object id") :=
  ⟨claim_c6_update_in_place.1 ⟨[(1, ent 1 1)], some 5, 0⟩ (ent 1 9) 1 (ent 1 1) []
      false rfl (by decide),
   claim_c6_update_in_place.2.1 (Collection.empty (some 5)) (ent 2 2) 2 [] false
     rfl (by decide),
   claim_c6_update_in_place.2.2 (Collection.empty (some 5)) ⟨0, none, 3, true, []⟩ []
     false rfl⟩

/-- Counterexample for C6 as stated: on a capacity-zero store and an input
lacking an identifier, `update` throws while `add` succeeds, so `update` on a
missing entry is not identical to `add` "for every input, including inputs
lacking an identifier and stores of capacity zero". -/
theorem claim_c6_update_add_counterexample :
    (Collection.empty (some 0)).update ⟨0, none, 5, false, []⟩ [] false ≠
      (Collection.empty (some 0)).add ⟨0, none, 5, false, []⟩ [] false ∧
    (Collection.empty (some 0)).update ⟨0, none, 5, false, []⟩ [] false =
      .error "Missing object id" ∧
    (Collection.empty (some 0)).add ⟨0, none, 5, false, []⟩ [] false =
      .ok (⟨0, none, 5, true, []⟩, ⟨[], some 0, 1⟩) :=
  ⟨by decide, by decide, by decide⟩

/-- C7 (amended): on a store of capacity exactly zero, `add` skips identifier
validation — an object lacking an identifier does not cause an error, the
object is still materialized for type consistency, and nothing is ever
stored — and on a store of nonzero (or unset) capacity, `add` with an object
lacking an identifier fails with the validation error. The original claim's
extension of the zero-capacity exemption to `update` fails: `update` validates
the identifier before the capacity-zero shortcut is ever reached (see the
counterexample). -/
theorem claim_c7_zero_capacity_add :
    (∀ (c : Collection) (o : Obj) (extra : List Nat) (rep : Bool),
      c.limit = some 0 →
      ∃ e c', c.add o extra rep = .ok (e, c') ∧ c'.entries = c.entries ∧
        e.typed = true ∧ e.id = o.id ∧ e.data = o.data) ∧
    (∀ (c : Collection) (o : Obj) (extra : List Nat) (rep : Bool),
      c.limit ≠ some 0 → o.id = none →
      c.add o extra rep = .error "Missing object id") := by
  constructor
  · intro c o extra rep hl0
    unfold Collection.add
    rw [if_pos hl0]
    cases ht : o.typed with
    | true =>
      refine ⟨o, c, ?_, rfl, ht, rfl, rfl⟩
      simp [ht]
    | false =>
      refine ⟨materialize o extra c.nextRef, { c with nextRef := c.nextRef + 1 },
        ?_, rfl, rfl, rfl, rfl⟩
      simp [ht]
  · intro c o extra rep hnz hid
    unfold Collection.add
    rw [if_neg hnz]
    simp only [hid]

/-- Witness for C7: a raw object with no identifier added to a capacity-zero
store (success, nothing stored) and to a capacity-5 store (validation
error). -/
theorem claim_c7_zero_capacity_add_witness :
    (∃ e c', (Collection.empty (some 0)).add ⟨0, none, 8, false, []⟩ [] false =
        .ok (e, c') ∧ c'.entries = (Collection.empty (some 0)).entries ∧
      e.typed = true ∧ e.id = (⟨0, none, 8, false, []⟩ : Obj).id ∧
      e.data = (⟨0, none, 8, false, []⟩ : Obj).data) ∧
    ((Collection.empty (some 5)).add ⟨0, none, 8, false, []⟩ [] false =
      .error "Missing object id") :=
  ⟨claim_c7_zero_capacity_add.1 (Collection.empty (some 0)) ⟨0, none, 8, false, []⟩
      [] false rfl,
   claim_c7_zero_capacity_add.2 (Collection.empty (some 5)) ⟨0, none, 8, false, []⟩
     [] false (by decide) rfl⟩

/-- Counterexample for C7 as stated: on a capacity-zero store, `update` — an
upsert operation per the claim — still validates the identifier and throws on
an object lacking one, so upserts do not uniformly skip identifier
validation. -/
theorem claim_c7_zero_capacity_update_counterexample :
    (Collection.empty (some 0)).update ⟨1, none, 7, false, []⟩ [] true =
      .error "Missing object id" := by
  decide

set_option maxRecDepth 100000 in
/-- C3: among ten same-category siblings at positions 0 through 9, moving the
entity at position 3 to position 7 submits a patch covering exactly the
entities whose current position lies in the closed range 3 to 7: the four
entities originally at positions 4, 5, 6, 7 move one step down to 3, 4, 5, 6,
the moved entity receives position 7 (appended, since it moves downward, after
the range-filtered siblings stable-sorted by ascending position, with positions
re-issued sequentially from the range minimum), and the entities at positions
0, 1, 2, 8, 9 appear in no patch entry. -/
theorem claim_c3_reorder_range :
    editChannelPosition chans10 3 7 none none =
      .ok (some [⟨4, 3, none, none⟩, ⟨5, 4, none, none⟩, ⟨6, 5, none, none⟩,
        ⟨7, 6, none, none⟩, ⟨3, 7, none, none⟩]) ∧
    (∀ e ∈ [(⟨4, 3, none, none⟩ : ChanPatch), ⟨5, 4, none, none⟩, ⟨6, 5, none, none⟩,
        ⟨7, 6, none, none⟩, ⟨3, 7, none, none⟩],
      e.id ∉ ([0, 1, 2, 8, 9] : List Nat)) := by
  constructor
  · decide
  · decide

/-- C10: `editRolePosition` with the role identifier equal to the guild
identifier rejects with the default-role error before looking at the role
list or the requested position, so no position patch is ever submitted. -/
theorem claim_c10_default_role_rejected (roles : List Role) (g : Nat) (p : Int) :
    editRolePosition roles g g p = .error "Cannot move default role" := by
  unfold editRolePosition
  rw [if_pos rfl]

set_option maxRecDepth 1000000 in
/-- C5: purging with limit -1 and no filter on a channel of 250 eligible
messages performs exactly three accumulation cycles gathering 100, 100 and 50
identifiers, submits exactly three bulk-delete requests of sizes 100, 100 and
50, and resolves with the count 250. -/
theorem claim_c5_purge_250 :
    purgeChannel purgeNow (purgeHist 250) none (-1) none =
      .ok (250, [.fetch 100, .fetch 100, .fetch 50,
        .bulkDelete 100, .bulkDelete 100, .bulkDelete 50]) := by
  decide

/-- C8: `deleteMessages` with two or more identifiers, at least one of which is
below the staleness bound derived from the snowflake's embedded timestamp,
rejects with an error — and since the result carries no request events, no
network call is made; `deleteMessages` with exactly one identifier is routed
through the single-delete request path rather than the bulk endpoint. -/
theorem claim_c8_delete_messages (now : Nat) (ids : List Nat)
    (h2 : 2 ≤ ids.length)
    (hstale : ∃ i ∈ ids, i < oldestAllowedSnowflake now) :
    (∃ e, deleteMessagesE now ids = .error e) ∧
    (∀ x, deleteMessagesE now [x] = .ok [.singleDelete x]) := by
  constructor
  · unfold deleteMessagesE
    simp only [deleteMessagesGo]
    rw [if_neg (by omega), if_neg (by omega)]
    cases hf : ids.find? (fun i => i < oldestAllowedSnowflake now) with
    | none =>
      exfalso
      obtain ⟨i, hmem, hlt⟩ := hstale
      have hn := List.find?_eq_none.mp hf i hmem
      simp at hn
      omega
    | some invalid => exact ⟨_, rfl⟩
  · intro x
    rfl

/-- Witness for C8: two identifiers, one of them stale for the given clock,
rejected; one identifier routed through the single-delete path. -/
theorem claim_c8_delete_messages_witness :
    (∃ e, deleteMessagesE 1421280000001 [1, 2] = .error e) ∧
    (∀ x, deleteMessagesE 1421280000001 [x] = .ok [.singleDelete x]) :=
  claim_c8_delete_messages 1421280000001 [1, 2] (by decide)
    ⟨1, by decide, by decide⟩

/-- C9: the allowed-mentions normalizer returns, for the two cited concrete
inputs, exactly the canonical shapes the claim states; it fails when an
explicit roles or users allow-list exceeds 100 entries; and with no input it
returns the caller's configured default. Every successful result structurally
carries a `parse` list (possibly empty). -/
theorem claim_c9_allowed_mentions :
    (∀ d : AllowedOut, formatAllowedMentions d
        (some ⟨true, .list [1, 2, 3], .unset, none⟩) =
      .ok ⟨["everyone"], some [1, 2, 3], none, none⟩) ∧
    (∀ d : AllowedOut, formatAllowedMentions d
        (some ⟨false, .flag true, .unset, none⟩) =
      .ok ⟨["roles"], none, none, none⟩) ∧
    (∀ (d : AllowedOut) (a : AllowedInput) (l : List Nat), a.roles = .list l →
      l.length > 100 →
      formatAllowedMentions d (some a) =
        .error "Allowed role mentions cannot exceed 100.") ∧
    (∀ (d : AllowedOut) (a : AllowedInput) (l : List Nat), a.users = .list l →
      l.length > 100 →
      (∀ lr, a.roles = .list lr → lr.length ≤ 100) →
      formatAllowedMentions d (some a) =
        .error "Allowed user mentions cannot exceed 100.") ∧
    (∀ d : AllowedOut, formatAllowedMentions d none = .ok d) := by
  refine ⟨fun d => rfl, fun d => rfl, ?_, ?_, fun d => rfl⟩
  · intro d a l hroles hlen
    obtain ⟨ev, rol, us, rep⟩ := a
    simp only at hroles
    subst hroles
    simp [formatAllowedMentions, hlen]
  · intro d a l husers hlen hroles
    obtain ⟨ev, rol, us, rep⟩ := a
    simp only at husers hroles
    subst husers
    cases rol with
    | unset => simp [formatAllowedMentions, hlen]
    | flag b => cases b <;> simp [formatAllowedMentions, hlen]
    | list lr =>
      have hle := hroles lr rfl
      simp [formatAllowedMentions, hlen, Nat.not_lt.mpr hle]

/-- Witness for C9: each clause of the normalizer theorem at concrete inputs,
with 101-entry allow-lists for the failure clauses. -/
theorem claim_c9_allowed_mentions_witness :
    (formatAllowedMentions ⟨[], none, none, none⟩
        (some ⟨true, .list [1, 2, 3], .unset, none⟩) =
      .ok ⟨["everyone"], some [1, 2, 3], none, none⟩) ∧
    (formatAllowedMentions ⟨[], none, none, none⟩
        (some ⟨false, .list (List.replicate 101 0), .unset, none⟩) =
      .error "Allowed role mentions cannot exceed 100.") ∧
    (formatAllowedMentions ⟨[], none, none, none⟩
        (some ⟨false, .unset, .list (List.replicate 101 0), none⟩) =
      .error "Allowed user mentions cannot exceed 100.") ∧
    (formatAllowedMentions ⟨[], none, none, none⟩ none =
      .ok ⟨[], none, none, none⟩) :=
  ⟨claim_c9_allowed_mentions.1 ⟨[], none, none, none⟩,
   claim_c9_allowed_mentions.2.2.1 ⟨[], none, none, none⟩ _ (List.replicate 101 0)
     rfl (by simp),
   claim_c9_allowed_mentions.2.2.2.1 ⟨[], none, none, none⟩ _ (List.replicate 101 0)
     rfl (by simp) (fun lr h => MField.noConfusion h),
   claim_c9_allowed_mentions.2.2.2.2 ⟨[], none, none, none⟩⟩

theorem scanDel_trace_fetch (now : Nat) (hist : List Msg)
    (filter : Option (Msg → Bool)) :
    ∀ (fuel : Nat) (before : Option Nat) (lim : Int) (acc : List Nat)
      (tr : List Ev), (∀ e ∈ tr, isFetchEv e = true) →
      ∀ e ∈ (scanDel now hist filter fuel before lim acc tr).2.2,
        isFetchEv e = true := by
  intro fuel
  induction fuel with
  | zero => intro before lim acc tr h e he; exact h e he
  | succ fuel ih =>
    intro before lim acc tr h
    have htr : ∀ e ∈ tr ++ [Ev.fetch (fetchPage hist before).length],
        isFetchEv e = true := by
      intro e he
      rcases List.mem_append.mp he with h1 | h1
      · exact h e h1
      · simp only [List.mem_singleton] at h1
        subst h1
        rfl
    simp only [scanDel]
    split
    · exact htr
    · split
      · exact htr
      · split
        · exact htr
        · split
          · exact htr
          · exact ih _ _ _ _ htr

theorem deleteMessagesGo_events (now : Nat) :
    ∀ (fuel : Nat) (ids : List Nat) (evs : List Ev),
      deleteMessagesGo now fuel ids = .ok evs →
      ∀ e ∈ evs, isFetchEv e = false ∧ ∀ ms, e ≠ Ev.sleep ms := by
  intro fuel
  induction fuel with
  | zero =>
    intro ids evs h e he
    simp only [deleteMessagesGo] at h
    cases h
    simp at he
  | succ fuel ih =>
    intro ids evs h
    simp only [deleteMessagesGo] at h
    split at h
    · cases h
      intro e he
      simp at he
    · split at h
      · cases h
        intro e he
        simp only [List.mem_singleton] at he
        subst he
        exact ⟨rfl, fun ms hc => Ev.noConfusion hc⟩
      · split at h
        · exact Except.noConfusion h
        · split at h
          · cases hrec : deleteMessagesGo now fuel (ids.drop 100) with
            | error s => rw [hrec] at h; exact Except.noConfusion h
            | ok evs' =>
              rw [hrec] at h
              simp only [Except.map, Except.ok.injEq] at h
              subst h
              intro e he
              rcases List.mem_cons.mp he with h1 | h1
              · subst h1
                exact ⟨rfl, fun ms hc => Ev.noConfusion hc⟩
              · exact ih _ _ hrec e h1
          · cases h
            intro e he
            simp only [List.mem_singleton] at he
            subst he
            exact ⟨rfl, fun ms hc => Ev.noConfusion hc⟩

theorem bulkBeforeFetch_no_fetch (b : List Ev)
    (hb : ∀ e ∈ b, isFetchEv e = false) : bulkBeforeFetch b = false := by
  induction b with
  | nil => rfl
  | cons e rest ih =>
    have hany : rest.any isFetchEv = false := by
      rw [List.any_eq_false]
      intro x hx
      simp [hb x (List.mem_cons_of_mem e hx)]
    simp only [bulkBeforeFetch, hany, Bool.and_false, Bool.false_or]
    exact ih (fun x hx => hb x (List.mem_cons_of_mem e hx))

theorem bulkBeforeFetch_append_false (a b : List Ev)
    (ha : ∀ e ∈ a, isFetchEv e = true) (hb : ∀ e ∈ b, isFetchEv e = false) :
    bulkBeforeFetch (a ++ b) = false := by
  induction a with
  | nil => exact bulkBeforeFetch_no_fetch b hb
  | cons e a ih =>
    have he := ha e (List.mem_cons_self e a)
    have hbf : isBulkEv e = false := by
      cases e <;> first | rfl | simp [isFetchEv] at he
    simp only [List.cons_append, bulkBeforeFetch, hbf, Bool.false_and,
      Bool.false_or]
    exact ih (fun x hx => ha x (List.mem_cons_of_mem e hx))

/-- C4 (amended): in `purgeChannel`, draining runs strictly after scanning, not
concurrently with it: the scanner (`del`) is awaited to completion — marking
the pipeline done — before `checkToDelete` first runs, so in every successful
run the request trace has every paged fetch before every delete request (no
bulk delete ever precedes a later fetch), the entire accumulated buffer is
submitted through one `deleteMessages` call that chunks it into bulk requests
of at most 100 back to back, and the 1-second pacing wait is never performed
(no sleep event occurs in the trace, the drain loop exiting on its done check
before either sleep). -/
theorem claim_c4_drain_after_scan (now : Nat) (hist : List Msg)
    (before : Option Nat) (limit : Int) (filter : Option (Msg → Bool))
    (n : Nat) (tr : List Ev)
    (h : purgeChannel now hist before limit filter = .ok (n, tr)) :
    bulkBeforeFetch tr = false ∧ Ev.sleep 1000 ∉ tr := by
  unfold purgeChannel at h
  split at h
  · simp only [Except.ok.injEq, Prod.mk.injEq] at h
    obtain ⟨-, h2⟩ := h
    subst h2
    exact ⟨rfl, by simp⟩
  · rcases hS : scanDel now hist filter (hist.length + 1) before limit [] []
      with ⟨l1, acc, tr1⟩
    rw [hS] at h
    have h' : (match deleteMessagesE now acc with
      | Except.error e => Except.error e
      | Except.ok evs => Except.ok (acc.length, tr1 ++ evs)) =
        Except.ok (n, tr) := h
    clear h
    cases hdm : deleteMessagesE now acc with
    | error e => rw [hdm] at h'; exact Except.noConfusion h'
    | ok evs =>
      rw [hdm] at h'
      simp only [Except.ok.injEq, Prod.mk.injEq] at h'
      obtain ⟨-, h2⟩ := h'
      subst h2
      have hfetch : ∀ e ∈ tr1, isFetchEv e = true := by
        have hh := scanDel_trace_fetch now hist filter (hist.length + 1) before
          limit [] [] (by simp)
        rw [hS] at hh
        exact hh
      have hno : ∀ e ∈ evs, isFetchEv e = false ∧ ∀ ms, e ≠ Ev.sleep ms :=
        deleteMessagesGo_events now (acc.length + 1) acc evs hdm
      constructor
      · exact bulkBeforeFetch_append_false tr1 evs hfetch
          (fun e he => (hno e he).1)
      · intro hmem
        rcases List.mem_append.mp hmem with h1 | h1
        · have := hfetch _ h1
          simp [isFetchEv] at this
        · exact (hno _ h1).2 1000 rfl

set_option maxRecDepth 1000000 in
/-- Witness for C4: the sequencing theorem applied to the concrete 150-message
purge run. -/
theorem claim_c4_drain_after_scan_witness :
    bulkBeforeFetch [Ev.fetch 100, Ev.fetch 50, Ev.bulkDelete 100,
      Ev.bulkDelete 50] = false ∧
    Ev.sleep 1000 ∉ [Ev.fetch 100, Ev.fetch 50, Ev.bulkDelete 100,
      Ev.bulkDelete 50] :=
  claim_c4_drain_after_scan purgeNow (purgeHist 150) none (-1) none 150
    [Ev.fetch 100, Ev.fetch 50, Ev.bulkDelete 100, Ev.bulkDelete 50] (by decide)

set_option maxRecDepth 1000000 in
/-- Counterexample for C4 as stated: on a 150-message channel the buffer
reaches 100 identifiers after the first fetch while scanning is unfinished,
yet the trace shows both bulk-delete requests after the last fetch (no batch
is submitted before the scan finishes), and no 1-second wait follows any
submitted batch — refuting both the concurrent-drain clause and the pacing
clause at this input. -/
theorem claim_c4_concurrency_counterexample :
    purgeChannel purgeNow (purgeHist 150) none (-1) none =
      .ok (150, [Ev.fetch 100, Ev.fetch 50, Ev.bulkDelete 100,
        Ev.bulkDelete 50]) ∧
    (([Ev.fetch 100, Ev.fetch 50, Ev.bulkDelete 100,
        Ev.bulkDelete 50].filter isBulkEv).length = 2) ∧
    bulkBeforeFetch [Ev.fetch 100, Ev.fetch 50, Ev.bulkDelete 100,
      Ev.bulkDelete 50] = false ∧
    Ev.sleep 1000 ∉ [Ev.fetch 100, Ev.fetch 50, Ev.bulkDelete 100,
      Ev.bulkDelete 50] := by
  refine ⟨by decide, by decide, by decide, by decide⟩
